import Mathlib

/-!
# Service / Ingress URL resolution helpers of `pkg/kube/services/services.go`

A shallow embedding of the pure parts of the Go package `services` and of the
per-Service bodies of its annotation-mutating loops, together with theorems
about them.

Modelling conventions

* Go `string` values are Lean `String`s, that is, texts.  The only separators
  the code splits on are the ASCII characters `\n` and `:`, and `len(s) > 0`
  is the test that `s` is not empty.
* A Go `map[string]string` is an association list; a nil map is `none`.
  Reading a missing key yields `""`, writing to a nil map is a run-time panic,
  deleting from a nil map does nothing.
* A Go pointer that may be nil is an `Option`.
* A run-time panic is the `Except.error` side of `Except Panic`.
* Go `error` values are values of `GoError`; a nil error is `none`.
-/

namespace Jx

/-! ## Constants (services.go, lines 26-36) -/

def ExposeAnnotation : String := "fabric8.io/expose"
def ExposeURLAnnotation : String := "fabric8.io/exposeUrl"
def ExposeGeneratedByAnnotation : String := "fabric8.io/generated-by"
def ExposeIngressName : String := "fabric8.io/ingress.name"
def JenkinsXSkipTLSAnnotation : String := "jenkins-x.io/skip.tls"
def ExposeIngressAnnotation : String := "fabric8.io/ingress.annotations"
def CertManagerAnnotation : String := "certmanager.k8s.io/issuer"
def CertManagerClusterAnnotation : String := "certmanager.k8s.io/cluster-issuer"
def ServiceAppLabel : String := "app"

/-- The value of `v1.ServiceTypeLoadBalancer` in the Kubernetes API. -/
def ServiceTypeLoadBalancer : String := "LoadBalancer"

/-! ## Data model: the fields of the Kubernetes objects that the code reads -/

/-- A `v1.ServicePort`: name, protocol and the `int32` port number. -/
structure ServicePort where
  Name : String
  Protocol : String
  Port : Int
  deriving DecidableEq, Repr

/-- A `v1.LoadBalancerIngress`: one ingress point of a load balancer. -/
structure LoadBalancerIngress where
  IP : String
  Hostname : String
  deriving DecidableEq, Repr

/-- A `v1.LoadBalancerStatus`. -/
structure LoadBalancerStatus where
  Ingress : List LoadBalancerIngress
  deriving DecidableEq, Repr

/-- A `v1.ServiceStatus`. -/
structure ServiceStatus where
  LoadBalancer : LoadBalancerStatus
  deriving DecidableEq, Repr

/-- A `v1.ServiceSpec`: the Service type and its declared ports. -/
structure ServiceSpec where
  Type_ : String
  Ports : List ServicePort
  deriving DecidableEq, Repr

/-- A Go `map[string]string` that is not nil, as an association list. -/
abbrev StringMap := List (String × String)

/-- A `v1.Service`.  `Annotations = none` is the nil map. -/
structure Service where
  Name : String
  Annotations : Option StringMap
  Spec : ServiceSpec
  Status : ServiceStatus
  deriving DecidableEq, Repr

/-- A `v1beta1.IngressRule`. -/
structure IngressRule where
  Host : String
  deriving DecidableEq, Repr

/-- A `v1beta1.IngressTLS`. -/
structure IngressTLS where
  Hosts : List String
  deriving DecidableEq, Repr

/-- A `v1beta1.IngressSpec`. -/
structure IngressSpec where
  TLS : List IngressTLS
  Rules : List IngressRule
  deriving DecidableEq, Repr

/-- A `v1beta1.Ingress`. -/
structure Ingress where
  Spec : IngressSpec
  deriving DecidableEq, Repr

/-- Go `error` values.  `ErrWaitTimeout` is the sentinel `wait.ErrWaitTimeout`,
which the code recognises by identity; `New text` is any other error value with
the given `Error()` text (also what `fmt.Errorf` builds once its verbs are
rendered); `Wrapf cause format args` is the value of `errors.Wrapf` and
`Errorf format args cause` that of a `fmt.Errorf` whose last verb prints the
error `cause`, both kept unrendered. -/
inductive GoError where
  | ErrWaitTimeout : GoError
  | New (text : String) : GoError
  | Wrapf (cause : GoError) (format : String) (args : List String) : GoError
  | Errorf (format : String) (args : List String) (cause : GoError) : GoError
  deriving DecidableEq, Repr

/-- Run-time panics the modelled code can raise. -/
inductive Panic where
  | indexOutOfRange : Panic
  | nilMapWrite : Panic
  deriving DecidableEq, Repr

/-- Equality of outcomes is decidable. -/
instance instDecidableEqExcept {ε α : Type} [DecidableEq ε] [DecidableEq α] :
    DecidableEq (Except ε α)
  | .ok a, .ok b => if h : a = b then isTrue (by rw [h]) else isFalse (by intro h2; cases h2; exact h rfl)
  | .error a, .error b =>
    if h : a = b then isTrue (by rw [h]) else isFalse (by intro h2; cases h2; exact h rfl)
  | .ok _, .error _ => isFalse (by intro h; cases h)
  | .error _, .ok _ => isFalse (by intro h; cases h)

/-! ## Go map operations -/

/-- The first value stored under `k`, if any. -/
def assocGet? (k : String) : StringMap → Option String
  | [] => none
  | (k1, v1) :: rest => if k1 = k then some v1 else assocGet? k rest

/-- Store `v` under `k`: overwrite the entry for `k`, or add one. -/
def assocSet (k v : String) : StringMap → StringMap
  | [] => [(k, v)]
  | (k1, v1) :: rest => if k1 = k then (k, v) :: rest else (k1, v1) :: assocSet k v rest

/-- Remove every entry stored under `k`. -/
def assocErase (k : String) : StringMap → StringMap
  | [] => []
  | (k1, v1) :: rest => if k1 = k then assocErase k rest else (k1, v1) :: assocErase k rest

/-- Go `m[k]` on a possibly nil map: the zero value `""` when `k` is absent. -/
def mapGet (m : Option StringMap) (k : String) : String :=
  match m with
  | none => ""
  | some l => (assocGet? k l).getD ""

/-- Go `_, ok := m[k]`. -/
def mapHas (m : Option StringMap) (k : String) : Bool :=
  match m with
  | none => false
  | some l => (assocGet? k l).isSome

/-- Go `m[k] = v`: panics on a nil map. -/
def mapSet (m : Option StringMap) (k v : String) : Except Panic (Option StringMap) :=
  match m with
  | none => .error .nilMapWrite
  | some l => .ok (some (assocSet k v l))

/-- Go `delete(m, k)`: a no-op on a nil map. -/
def mapDelete (m : Option StringMap) (k : String) : Option StringMap :=
  match m with
  | none => none
  | some l => some (assocErase k l)

/-! ## `strconv.FormatInt(i, 10)` -/

/-- Decimal text of an integer, as `strconv.FormatInt(int64(p), 10)` gives it. -/
def FormatInt (i : Int) : String :=
  match i with
  | Int.ofNat n => Nat.repr n
  | Int.negSucc n => "-" ++ Nat.repr (n + 1)

/-! ## `IngressURL` (services.go, lines 140-162) -/

/-- The inner loop `for _, h := range tls.Hosts`: the URL returned from inside
the loop, or `none` when the loop runs to its end. -/
def IngressURL.hostsLoop : List String → Option String
  | [] => none
  | h :: rest => if h ≠ "" then some ("https://" ++ h) else IngressURL.hostsLoop rest

/-- The outer loop `for _, tls := range ing.Spec.TLS`. -/
def IngressURL.tlsLoop : List IngressTLS → Option String
  | [] => none
  | tls :: rest =>
    match IngressURL.hostsLoop tls.Hosts with
    | some url => some url
    | none => IngressURL.tlsLoop rest

/-- `IngressURL` returns the URL for the ingress. -/
def IngressURL (ing : Option Ingress) : String :=
  match ing with
  | none => ""
  | some ing =>
    match ing.Spec.Rules with
    | [] => ""
    | rule :: _ =>
      let hostname := rule.Host
      match IngressURL.tlsLoop ing.Spec.TLS with
      | some url => url
      | none => if hostname ≠ "" then "http://" ++ hostname else ""

/-- The reference definition of the Ingress URL, following the specification:
no rules or a nil Ingress give `""`; otherwise the first non-empty host over
all TLS entries (entries in order, hosts in order within an entry) gives
`https://host`; otherwise a non-empty host of the first rule gives
`http://host`; otherwise `""`. -/
def IngressURL_spec (ing : Option Ingress) : String :=
  match ing with
  | none => ""
  | some ing =>
    if ing.Spec.Rules = [] then ""
    else
      match ((ing.Spec.TLS.map (fun t => t.Hosts)).flatten).find? (fun h => h ≠ "") with
      | some h => "https://" ++ h
      | none =>
        match ing.Spec.Rules.head? with
        | some rule => if rule.Host ≠ "" then "http://" ++ rule.Host else ""
        | none => ""

/-! ## `GetServiceURL` (services.go, lines 202-231) -/

/-- The loop `for _, port := range svc.Spec.Ports` choosing the scheme. -/
def GetServiceURL.schemeLoop : List ServicePort → String → String
  | [], scheme => scheme
  | port :: rest, scheme =>
    if port.Port = 443 then "https" else GetServiceURL.schemeLoop rest scheme

/-- The loop `for _, ing := range svc.Status.LoadBalancer.Ingress`: the value
the function returns, `url` being returned when the loop runs to its end. -/
def GetServiceURL.ingressLoop (scheme : String) : List LoadBalancerIngress → String → String
  | [], url => url
  | ing :: rest, url =>
    if ing.IP ≠ "" then scheme ++ "://" ++ ing.IP ++ "/"
    else if ing.Hostname ≠ "" then scheme ++ "://" ++ ing.Hostname ++ "/"
    else GetServiceURL.ingressLoop scheme rest url

/-- `GetServiceURL` returns the url of the service. -/
def GetServiceURL (svc : Option Service) : String :=
  let url : String :=
    match svc with
    | some s => if s.Annotations ≠ none then mapGet s.Annotations ExposeURLAnnotation else ""
    | none => ""
  if url = "" then
    match svc with
    | some s =>
      if s.Spec.Type_ = ServiceTypeLoadBalancer then
        let scheme := GetServiceURL.schemeLoop s.Spec.Ports "http"
        GetServiceURL.ingressLoop scheme s.Status.LoadBalancer.Ingress url
      else url
    | none => url
  else url

/-- The load-balancer URL as the specification words it: the first ingress
point with a non-empty IP wins over every hostname; only when no ingress point
has a non-empty IP is the first non-empty hostname used. -/
def LoadBalancerURL_spec (s : Service) : String :=
  let scheme := if s.Spec.Ports.any (fun p => p.Port = 443) then "https" else "http"
  match s.Status.LoadBalancer.Ingress.find? (fun i => i.IP ≠ "") with
  | some i => scheme ++ "://" ++ i.IP ++ "/"
  | none =>
    match s.Status.LoadBalancer.Ingress.find? (fun i => i.Hostname ≠ "") with
    | some i => scheme ++ "://" ++ i.Hostname ++ "/"
    | none => ""

/-- The load-balancer URL the code computes: the first ingress point that has a
non-empty IP or a non-empty hostname decides, its IP being preferred to its
hostname. -/
def LoadBalancerURL_firstPoint (s : Service) : String :=
  let scheme := if s.Spec.Ports.any (fun p => p.Port = 443) then "https" else "http"
  match s.Status.LoadBalancer.Ingress.find? (fun i => i.IP ≠ "" ∨ i.Hostname ≠ "") with
  | some i => scheme ++ "://" ++ (if i.IP ≠ "" then i.IP else i.Hostname) ++ "/"
  | none => ""

/-! ## `ExtractServiceSchemePort` (services.go, lines 519-570) -/

/-- The local variables `scheme`, `port` and `found`. -/
structure SchemePort where
  scheme : String
  port : String
  found : Bool
  deriving DecidableEq, Repr

/-- First loop: `if p.Port == 443 { ...; break }`. -/
def ExtractServiceSchemePort.loop443 : List ServicePort → SchemePort → SchemePort
  | [], st => st
  | p :: rest, st =>
    if p.Port = 443 then ⟨"https", "443", true⟩
    else ExtractServiceSchemePort.loop443 rest st

/-- Second loop: `if p.Port == 80 { ... }`, without a break. -/
def ExtractServiceSchemePort.loop80 : List ServicePort → SchemePort → SchemePort
  | [], st => st
  | p :: rest, st =>
    ExtractServiceSchemePort.loop80 rest (if p.Port = 80 then ⟨"http", "80", true⟩ else st)

/-- Third loop: a TCP port named `https`, with a break. -/
def ExtractServiceSchemePort.loopHttps : List ServicePort → SchemePort → SchemePort
  | [], st => st
  | p :: rest, st =>
    if p.Protocol = "TCP" then
      if p.Name = "https" then ⟨"https", FormatInt p.Port, true⟩
      else ExtractServiceSchemePort.loopHttps rest st
    else ExtractServiceSchemePort.loopHttps rest st

/-- Fourth loop: a port named `http`, with a break. -/
def ExtractServiceSchemePort.loopHttp : List ServicePort → SchemePort → SchemePort
  | [], st => st
  | p :: rest, st =>
    if p.Name = "http" then ⟨"http", FormatInt p.Port, true⟩
    else ExtractServiceSchemePort.loopHttp rest st

/-- `ExtractServiceSchemePort` interprets http scheme and port information from
a Service definition; the third component is the returned error. -/
def ExtractServiceSchemePort (svc : Service) : String × String × Option GoError :=
  let st0 : SchemePort := ⟨"", "", false⟩
  let st1 := ExtractServiceSchemePort.loop443 svc.Spec.Ports st0
  let st2 := if !st1.found then ExtractServiceSchemePort.loop80 svc.Spec.Ports st1 else st1
  let st3 := if !st2.found then ExtractServiceSchemePort.loopHttps svc.Spec.Ports st2 else st2
  let st4 := if !st3.found then ExtractServiceSchemePort.loopHttp svc.Spec.Ports st3 else st3
  (st4.scheme, st4.port, none)

/-- The strict-priority reference definition of the specification. -/
def ExtractServiceSchemePort_spec (ports : List ServicePort) : String × String × Option GoError :=
  if ports.any (fun p => p.Port = 443) then ("https", "443", none)
  else if ports.any (fun p => p.Port = 80) then ("http", "80", none)
  else
    match ports.find? (fun p => p.Protocol = "TCP" ∧ p.Name = "https") with
    | some p => ("https", FormatInt p.Port, none)
    | none =>
      match ports.find? (fun p => p.Name = "http") with
      | some p => ("http", FormatInt p.Port, none)
      | none => ("", "", none)

/-! ## Library functions of the Go standard library used by the code -/

/-- `strings.Split(s, sep)` for a separator of one character: the substrings
between the occurrences of `sep`; a string without `sep` (also `""`) gives the
one-element list holding it. -/
def Split (s : String) (sep : Char) : List String :=
  (s.data.splitOn sep).map String.mk

/-- `strings.SplitN(s, sep, n)` for a separator of one character and `n ≥ 0`:
at most `n` substrings, the last one being the unsplit remainder; `n = 0` gives
the empty list.  With `n = 2` the result is the text before the first `sep` and
the text after it, or the one-element list holding `s` when `s` has no `sep`. -/
def SplitN (s : String) (sep : Char) : Nat → List String
  | 0 => []
  | 1 => [s]
  | n + 2 =>
    if sep ∈ s.data then
      String.mk (s.data.takeWhile (fun c => c ≠ sep))
        :: SplitN (String.mk ((s.data.dropWhile (fun c => c ≠ sep)).drop 1)) sep (n + 1)
    else [s]

/-- Modelled from the spec: `util.StringArrayIndex` is not under src/; it gives
the position of a name in the caller-given name set, and a negative number when
the name is not in it. -/
def StringArrayIndex (array : List String) (value : String) : Int :=
  if value ∈ array then (array.indexOf value : Nat) else -1

/-! ## `WaitForExternalIP`, `WaitForService` (services.go, lines 272-325)

The blocking calls are inputs: `watch` is the outcome of opening the watch and
`untilErr` the error returned by `toolsWatch.UntilWithoutRetry`. -/

/-- `WaitForExternalIP`, as a function of the outcomes of its two blocking calls. -/
def WaitForExternalIP (watch : Except GoError Unit) (untilErr : Option GoError)
    (name : String) : Option GoError :=
  match watch with
  | .error err => some err
  | .ok _ =>
    if untilErr = some GoError.ErrWaitTimeout then
      some (GoError.New ("service " ++ name ++ " never became ready"))
    else none

/-- `WaitForService`, as a function of the outcomes of its two blocking calls. -/
def WaitForService (watch : Except GoError Unit) (untilErr : Option GoError)
    (name : String) : Option GoError :=
  match watch with
  | .error err => some err
  | .ok _ =>
    if untilErr = some GoError.ErrWaitTimeout then
      some (GoError.New ("service " ++ name ++ " never became ready"))
    else none

/-! ## Annotation mutation (services.go, lines 389-515) -/

/-- What a run of one of the mutating functions does to the cluster and how it
ends: the arguments of its `Update` calls, in order, and either the returned
error (`none` for nil) or the panic that stopped it. -/
structure Run where
  updates : List Service
  result : Except Panic (Option GoError)
  deriving DecidableEq, Repr

/-- Lines 408-418 of `AnnotateServicesWithCertManagerIssuer`: the new value of
the ingress-annotations blob. -/
def AnnotateServicesWithCertManagerIssuer.ingressAnnotations (existingAnnotations issuer : String)
    (clusterIssuer : Bool) : String :=
  let certManagerAnnotation :=
    if clusterIssuer then CertManagerClusterAnnotation else CertManagerAnnotation
  if existingAnnotations.length > 0 then
    existingAnnotations ++ "\n" ++ certManagerAnnotation ++ ": " ++ issuer
  else certManagerAnnotation ++ ": " ++ issuer

/-- The three-line block of `AnnotateServicesWithBasicAuth`; the constant
`kube.SecretBasicAuth`, declared outside src/, is the parameter. -/
def AnnotateServicesWithBasicAuth.basicAuthAnnotations (SecretBasicAuth : String) : String :=
  "nginx.ingress.kubernetes.io/auth-type: basic\nnginx.ingress.kubernetes.io/auth-secret: "
    ++ SecretBasicAuth
    ++ "\nnginx.ingress.kubernetes.io/auth-realm: Authentication is required to access this service"

/-- Lines 444-458 of `AnnotateServicesWithBasicAuth`: what the loop body does to
a Service that is in the white-list, before it is passed to `Update`. -/
def AnnotateServicesWithBasicAuth.body (SecretBasicAuth : String) (service : Service) : Service :=
  let annotations : StringMap :=
    match service.Annotations with
    | none => []
    | some m => m
  let ingressAnnotations := mapGet (some annotations) ExposeIngressAnnotation
  let basicAuthAnnotations := AnnotateServicesWithBasicAuth.basicAuthAnnotations SecretBasicAuth
  let ingressAnnotations :=
    if ingressAnnotations ≠ "" then ingressAnnotations ++ "\n" ++ basicAuthAnnotations
    else basicAuthAnnotations
  { service with Annotations := some (assocSet ExposeIngressAnnotation ingressAnnotations annotations) }

/-- The loop of `AnnotateServicesWithBasicAuth` over the listed Services, in the
order the map iteration visits them; `updateErr` is the error `Update` returns
for a Service. -/
def AnnotateServicesWithBasicAuth.loop (SecretBasicAuth ns : String)
    (updateErr : Service → Option GoError) (services : List String) : List Service → Run
  | [] => ⟨[], .ok none⟩
  | service :: rest =>
    if StringArrayIndex services service.Name < 0 then
      AnnotateServicesWithBasicAuth.loop SecretBasicAuth ns updateErr services rest
    else
      let service1 := AnnotateServicesWithBasicAuth.body SecretBasicAuth service
      match updateErr service1 with
      | some err =>
        ⟨[service1],
          .ok (some (GoError.Wrapf err "updating the service %q in namesapce %q" [service.Name, ns]))⟩
      | none =>
        let r := AnnotateServicesWithBasicAuth.loop SecretBasicAuth ns updateErr services rest
        ⟨service1 :: r.updates, r.result⟩

/-- `AnnotateServicesWithBasicAuth` annotates the services with nginx basic auth
annotations; `getServices` is the outcome of `GetServices`. -/
def AnnotateServicesWithBasicAuth (getServices : Except GoError (List Service))
    (updateErr : Service → Option GoError) (SecretBasicAuth ns : String)
    (services : List String) : Run :=
  if services.length = 0 then ⟨[], .ok none⟩
  else
    match getServices with
    | .error err =>
      ⟨[], .ok (some (GoError.Wrapf err "retrieving the services from namespace %q" [ns]))⟩
    | .ok svcList => AnnotateServicesWithBasicAuth.loop SecretBasicAuth ns updateErr services svcList

/-- Lines 488-494 of `CleanServiceAnnotations`: the loop over the lines of the
blob.  `annotation[1]` is read for every line (its trimmed value is discarded),
so a line that `SplitN` leaves in one piece stops the run with a panic. -/
def CleanServiceAnnotations.filterLoop : List String → List String → Except Panic (List String)
  | [], newAnnotations => .ok newAnnotations
  | element :: rest, newAnnotations =>
    let annotation := SplitN element ':' 2
    match annotation[0]?, annotation[1]? with
    | some key, some _ =>
      if key ≠ CertManagerAnnotation ∧ key ≠ CertManagerClusterAnnotation then
        CleanServiceAnnotations.filterLoop rest (newAnnotations ++ [element])
      else CleanServiceAnnotations.filterLoop rest newAnnotations
    | _, _ => .error Panic.indexOutOfRange

/-- Lines 495-502 of `CleanServiceAnnotations`: the loop that joins the kept
lines again. -/
def CleanServiceAnnotations.joinLoop : List String → String → String
  | [], annotationsForIngress => annotationsForIngress
  | v :: rest, annotationsForIngress =>
    CleanServiceAnnotations.joinLoop rest
      (if annotationsForIngress.length > 0 then annotationsForIngress ++ "\n" ++ v else v)

/-- Lines 486-502 of `CleanServiceAnnotations`: the new value of a non-empty
ingress-annotations blob. -/
def CleanServiceAnnotations.ingressAnnotations (annotationsForIngress : String) :
    Except Panic String :=
  match CleanServiceAnnotations.filterLoop (Split annotationsForIngress '\n') [] with
  | .error p => .error p
  | .ok newAnnotations => .ok (CleanServiceAnnotations.joinLoop newAnnotations "")

/-- The test of line 481: expose annotation `"true"`, skip-TLS annotation not
`"true"`. -/
def CleanServiceAnnotations.eligible (s : Service) : Bool :=
  decide (mapGet s.Annotations ExposeAnnotation = "true"
    ∧ mapGet s.Annotations JenkinsXSkipTLSAnnotation ≠ "true")

/-- Lines 483-506 of `CleanServiceAnnotations`: what the loop body does to a
Service that passed the test of line 481, before it is passed to `Update`. -/
def CleanServiceAnnotations.body (s : Service) : Except Panic Service :=
  let annotationsForIngress := mapGet s.Annotations ExposeIngressAnnotation
  let written : Except Panic (Option StringMap) :=
    if annotationsForIngress.length > 0 then
      match CleanServiceAnnotations.ingressAnnotations annotationsForIngress with
      | .error p => .error p
      | .ok blob => mapSet s.Annotations ExposeIngressAnnotation blob
    else .ok s.Annotations
  match written with
  | .error p => .error p
  | .ok m => .ok { s with Annotations := mapDelete m ExposeURLAnnotation }

/-- Lines 481-506: the transformation `CleanServiceAnnotations` applies to one
selected Service; a Service failing the test of line 481 is left as it is. -/
def CleanServiceAnnotations.perService (s : Service) : Except Panic Service :=
  if CleanServiceAnnotations.eligible s then CleanServiceAnnotations.body s else .ok s

/-- The loop of `CleanServiceAnnotations` over the listed Services, in the order
the map iteration visits them; `updateErr` is the error `Update` returns for a
Service. -/
def CleanServiceAnnotations.loop (ns : String) (updateErr : Service → Option GoError)
    (services : List String) : List Service → Run
  | [] => ⟨[], .ok none⟩
  | s :: rest =>
    if services.length > 0 ∧ StringArrayIndex services s.Name < 0 then
      CleanServiceAnnotations.loop ns updateErr services rest
    else if CleanServiceAnnotations.eligible s then
      match CleanServiceAnnotations.body s with
      | .error p => ⟨[], .error p⟩
      | .ok s1 =>
        match updateErr s1 with
        | some err =>
          ⟨[s1], .ok (some (GoError.Errorf
            "failed to clean service %s annotations in namespace %s: %v" [s.Name, ns] err))⟩
        | none =>
          let r := CleanServiceAnnotations.loop ns updateErr services rest
          ⟨s1 :: r.updates, r.result⟩
    else CleanServiceAnnotations.loop ns updateErr services rest

/-- `CleanServiceAnnotations`; `getServices` is the outcome of `GetServices`. -/
def CleanServiceAnnotations (getServices : Except GoError (List Service))
    (updateErr : Service → Option GoError) (ns : String) (services : List String) : Run :=
  match getServices with
  | .error err => ⟨[], .ok (some err)⟩
  | .ok svcList => CleanServiceAnnotations.loop ns updateErr services svcList

/-! ## Reference notions used in the statements -/

/-- The text of a line before its first colon (the whole line when it has none). -/
def keyOf (line : String) : String :=
  String.mk (line.data.takeWhile (fun c => c ≠ ':'))

/-- A line is kept by cleaning when its key is neither certificate-issuer key. -/
def keptLine (line : String) : Bool :=
  decide (keyOf line ≠ CertManagerAnnotation ∧ keyOf line ≠ CertManagerClusterAnnotation)

/-- The blob the specification describes for cleaning: the `"\n"`-join, in the
original order, of the lines of the old blob whose key is not a
certificate-issuer key. -/
def cleanedBlob_spec (blob : String) : String :=
  "\n".intercalate ((Split blob '\n').filter keptLine)

/-! ## Concrete Services used as examples -/

/-- A LoadBalancer Service with port 443, an ingress point with an IP, and the
exposed-URL annotation set. -/
def svcExposeUrl : Service :=
  ⟨"jenkins", some [("fabric8.io/exposeUrl", "http://jenkins.example.com")],
    ⟨"LoadBalancer", [⟨"https", "TCP", 443⟩]⟩, ⟨⟨[⟨"1.2.3.4", ""⟩]⟩⟩⟩

/-- A LoadBalancer Service without annotations whose first ingress point has
only a hostname and whose second has only an IP. -/
def svcHostnameThenIP : Service :=
  ⟨"lb", none, ⟨"LoadBalancer", [⟨"http", "TCP", 8080⟩]⟩,
    ⟨⟨[⟨"", "lb.example.com"⟩, ⟨"1.2.3.4", ""⟩]⟩⟩⟩

/-- A LoadBalancer Service with port 443 and one ingress point with IP `1.2.3.4`. -/
def svcPort443 : Service :=
  ⟨"lb", some [], ⟨"LoadBalancer", [⟨"https", "TCP", 443⟩]⟩, ⟨⟨[⟨"1.2.3.4", ""⟩]⟩⟩⟩

/-- A Service without any annotation. -/
def svcNoAnnotations : Service := ⟨"nexus", none, ⟨"ClusterIP", []⟩, ⟨⟨[]⟩⟩⟩

/-- An exposed Service named `nexus`. -/
def svcNexus : Service :=
  ⟨"nexus", some [("fabric8.io/expose", "true")], ⟨"ClusterIP", []⟩, ⟨⟨[]⟩⟩⟩

/-- An exposed Service named `jenkins`. -/
def svcJenkins : Service :=
  ⟨"jenkins", some [("fabric8.io/expose", "true")], ⟨"ClusterIP", []⟩, ⟨⟨[]⟩⟩⟩

/-- An exposed Service whose ingress-annotations blob ends with a newline. -/
def svcTrailingNewline : Service :=
  ⟨"jenkins", some [("fabric8.io/expose", "true"), ("fabric8.io/ingress.annotations", "a: b\n")],
    ⟨"ClusterIP", []⟩, ⟨⟨[]⟩⟩⟩

/-- An exposed Service whose ingress-annotations blob is one line without a
trailing newline. -/
def svcOneLine : Service :=
  ⟨"jenkins", some [("fabric8.io/expose", "true"), ("fabric8.io/ingress.annotations", "a: b")],
    ⟨"ClusterIP", []⟩, ⟨⟨[]⟩⟩⟩

end Jx

/-! # Theorems -/

namespace Jx

set_option maxRecDepth 100000

/-! ## Ingress URL -/

theorem IngressURL.hostsLoop_eq (hs : List String) :
    IngressURL.hostsLoop hs = (hs.find? (fun h => h ≠ "")).map (fun h => "https://" ++ h) := by
  induction hs with
  | nil => rfl
  | cons h rest ih =>
    by_cases hh : h = "" <;> simp [IngressURL.hostsLoop, List.find?_cons, hh, ih]

theorem IngressURL.tlsLoop_eq (tls : List IngressTLS) :
    IngressURL.tlsLoop tls
      = (((tls.map (fun t => t.Hosts)).flatten).find? (fun h => h ≠ "")).map
          (fun h => "https://" ++ h) := by
  induction tls with
  | nil => rfl
  | cons t rest ih =>
    simp only [IngressURL.tlsLoop, List.map_cons, List.flatten_cons, List.find?_append,
      IngressURL.hostsLoop_eq, ih]
    cases List.find? (fun h => decide (h ≠ "")) t.Hosts <;> simp

/-- C4: for every Ingress (nil included) `IngressURL` equals the reference
definition: no rules give `""`; otherwise the first non-empty TLS host, TLS
entries in order and hosts in order within an entry, gives `https://host`
whatever the host of the rule is; otherwise a non-empty host of the first rule
gives `http://host`; otherwise `""`. -/
theorem IngressURL_eq_spec (ing : Option Ingress) : IngressURL ing = IngressURL_spec ing := by
  cases ing with
  | none => rfl
  | some ing =>
    simp only [IngressURL, IngressURL_spec, IngressURL.tlsLoop_eq]
    cases hr : ing.Spec.Rules with
    | nil => simp
    | cons rule rest =>
      simp only [List.head?_cons]
      cases List.find? (fun h => decide (h ≠ "")) (List.map (fun t => t.Hosts) ing.Spec.TLS).flatten
        <;> simp

/-! ## Scheme and port extraction -/

theorem ExtractServiceSchemePort.loop443_eq (ports : List ServicePort) (st : SchemePort) :
    ExtractServiceSchemePort.loop443 ports st
      = if ports.any (fun p => p.Port = 443) then ⟨"https", "443", true⟩ else st := by
  induction ports with
  | nil => rfl
  | cons p rest ih =>
    by_cases hp : p.Port = 443 <;> simp [ExtractServiceSchemePort.loop443, hp, ih]

theorem ExtractServiceSchemePort.loop80_eq (ports : List ServicePort) (st : SchemePort) :
    ExtractServiceSchemePort.loop80 ports st
      = if ports.any (fun p => p.Port = 80) then ⟨"http", "80", true⟩ else st := by
  induction ports generalizing st with
  | nil => rfl
  | cons p rest ih =>
    by_cases hp : p.Port = 80 <;> simp [ExtractServiceSchemePort.loop80, hp, ih]

theorem ExtractServiceSchemePort.loopHttps_eq (ports : List ServicePort) (st : SchemePort) :
    ExtractServiceSchemePort.loopHttps ports st
      = match ports.find? (fun p => p.Protocol = "TCP" ∧ p.Name = "https") with
        | some p => ⟨"https", FormatInt p.Port, true⟩
        | none => st := by
  induction ports with
  | nil => rfl
  | cons p rest ih =>
    by_cases h1 : p.Protocol = "TCP" <;> by_cases h2 : p.Name = "https" <;>
      simp [ExtractServiceSchemePort.loopHttps, List.find?_cons, h1, h2, ih]

theorem ExtractServiceSchemePort.loopHttp_eq (ports : List ServicePort) (st : SchemePort) :
    ExtractServiceSchemePort.loopHttp ports st
      = match ports.find? (fun p => p.Name = "http") with
        | some p => ⟨"http", FormatInt p.Port, true⟩
        | none => st := by
  induction ports with
  | nil => rfl
  | cons p rest ih =>
    by_cases h2 : p.Name = "http" <;>
      simp [ExtractServiceSchemePort.loopHttp, List.find?_cons, h2, ih]

theorem ExtractServiceSchemePort.eq_spec (svc : Service) :
    ExtractServiceSchemePort svc = ExtractServiceSchemePort_spec svc.Spec.Ports := by
  simp only [ExtractServiceSchemePort, ExtractServiceSchemePort_spec,
    ExtractServiceSchemePort.loop443_eq, ExtractServiceSchemePort.loop80_eq,
    ExtractServiceSchemePort.loopHttps_eq, ExtractServiceSchemePort.loopHttp_eq]
  by_cases h443 : svc.Spec.Ports.any (fun p => p.Port = 443) = true
  · simp [h443]
  · by_cases h80 : svc.Spec.Ports.any (fun p => p.Port = 80) = true
    · simp [h443, h80]
    · simp only [h443, h80, if_false, Bool.false_eq_true, Bool.not_false, if_true]
      cases h3 : List.find? (fun p => decide (p.Protocol = "TCP" ∧ p.Name = "https")) svc.Spec.Ports with
      | some p => simp
      | none =>
        simp only [Bool.not_false, if_true]
        cases h4 : List.find? (fun p => decide (p.Name = "http")) svc.Spec.Ports <;> simp

/-- C1: `ExtractServiceSchemePort` equals the strict-priority reference
definition on every Service (a port numbered 443 gives `("https", "443")`; else
a port numbered 80 gives `("http", "80")`; else the first TCP port named
`https` gives `https` with the decimal text of its number; else the first port
named `http` gives `http` with the decimal text of its number; else
`("", "")`), the returned error is always nil, and every port list holding a
port numbered 443 yields `("https", "443")`, whatever else it holds, a port
named `http` included. -/
theorem ExtractServiceSchemePort_strict_priority (svc : Service) :
    ExtractServiceSchemePort svc = ExtractServiceSchemePort_spec svc.Spec.Ports
    ∧ (ExtractServiceSchemePort svc).2.2 = none
    ∧ ∀ (before after : List ServicePort) (name protocol : String),
        ExtractServiceSchemePort
          { svc with Spec := { svc.Spec with Ports := before ++ ⟨name, protocol, 443⟩ :: after } }
          = ("https", "443", none) := by
  refine ⟨ExtractServiceSchemePort.eq_spec svc, rfl, ?_⟩
  intro before after name protocol
  rw [ExtractServiceSchemePort.eq_spec]
  simp [ExtractServiceSchemePort_spec]

/-! ## Service URL -/

theorem GetServiceURL.schemeLoop_eq (ports : List ServicePort) (scheme : String) :
    GetServiceURL.schemeLoop ports scheme
      = if ports.any (fun p => p.Port = 443) then "https" else scheme := by
  induction ports with
  | nil => rfl
  | cons p rest ih =>
    by_cases hp : p.Port = 443 <;> simp [GetServiceURL.schemeLoop, hp, ih]

theorem GetServiceURL.ingressLoop_eq (scheme : String) (points : List LoadBalancerIngress)
    (url : String) :
    GetServiceURL.ingressLoop scheme points url
      = match points.find? (fun i => i.IP ≠ "" ∨ i.Hostname ≠ "") with
        | some i => scheme ++ "://" ++ (if i.IP ≠ "" then i.IP else i.Hostname) ++ "/"
        | none => url := by
  induction points with
  | nil => rfl
  | cons i rest ih =>
    by_cases h1 : i.IP = "" <;> by_cases h2 : i.Hostname = "" <;>
      simp [GetServiceURL.ingressLoop, List.find?_cons, h1, h2, ih]

/-- C2: for every Service whose exposed-URL annotation is present and non-empty,
`GetServiceURL` returns exactly that annotation value, whatever the Service
type, the declared ports and the load-balancer status are. -/
theorem GetServiceURL_exposeUrl (svc : Service) (m : StringMap) (url : String)
    (hm : svc.Annotations = some m) (hurl : assocGet? ExposeURLAnnotation m = some url)
    (hne : url ≠ "") :
    GetServiceURL (some svc) = url := by
  simp [GetServiceURL, hm, mapGet, hurl, hne]

/-- Witness of C2: a Service of type `LoadBalancer` with port 443, an ingress
point with an IP, and the annotation set. -/
theorem GetServiceURL_exposeUrl_witness :
    svcExposeUrl.Annotations = some [("fabric8.io/exposeUrl", "http://jenkins.example.com")]
    ∧ assocGet? ExposeURLAnnotation [("fabric8.io/exposeUrl", "http://jenkins.example.com")]
        = some "http://jenkins.example.com"
    ∧ "http://jenkins.example.com" ≠ ""
    ∧ GetServiceURL (some svcExposeUrl) = "http://jenkins.example.com" :=
  ⟨rfl, by decide, by decide,
    GetServiceURL_exposeUrl svcExposeUrl [("fabric8.io/exposeUrl", "http://jenkins.example.com")]
      "http://jenkins.example.com" rfl (by decide) (by decide)⟩

/-- C3, as stated, fails: for a LoadBalancer Service without exposed-URL
annotation whose first ingress point has only a hostname and whose second has
an IP, the code returns the URL of the hostname of the first point, while the
stated rule (the first non-empty IP over all points wins) gives the URL of the
IP. -/
theorem hostname_before_IP_counterexample :
    svcHostnameThenIP.Spec.Type_ = ServiceTypeLoadBalancer
    ∧ mapGet svcHostnameThenIP.Annotations ExposeURLAnnotation = ""
    ∧ LoadBalancerURL_spec svcHostnameThenIP = "http://1.2.3.4/"
    ∧ GetServiceURL (some svcHostnameThenIP) = "http://lb.example.com/"
    ∧ GetServiceURL (some svcHostnameThenIP) ≠ LoadBalancerURL_spec svcHostnameThenIP := by
  decide

/-- C3, amended: for every Service of type LoadBalancer with no (or an empty)
exposed-URL annotation, `GetServiceURL` uses scheme `https` if some declared
port is 443 and `http` otherwise, and the first ingress point, in list order,
that has a non-empty IP or a non-empty hostname decides the result:
`scheme://IP/` if its IP is non-empty, `scheme://hostname/` otherwise; with no
such point the result is the empty string. -/
theorem GetServiceURL_loadBalancer (svc : Service)
    (htype : svc.Spec.Type_ = ServiceTypeLoadBalancer)
    (hann : mapGet svc.Annotations ExposeURLAnnotation = "") :
    GetServiceURL (some svc) = LoadBalancerURL_firstPoint svc := by
  have hurl : (if svc.Annotations ≠ none then mapGet svc.Annotations ExposeURLAnnotation else "")
      = "" := by
    split <;> simp [hann]
  simp only [GetServiceURL, hurl, htype, if_true, LoadBalancerURL_firstPoint,
    GetServiceURL.schemeLoop_eq, GetServiceURL.ingressLoop_eq]

/-- Witness of C3, amended: port 443 and an ingress point with IP `1.2.3.4`
yield `https://1.2.3.4/`. -/
theorem GetServiceURL_loadBalancer_witness :
    svcPort443.Spec.Type_ = ServiceTypeLoadBalancer
    ∧ mapGet svcPort443.Annotations ExposeURLAnnotation = ""
    ∧ GetServiceURL (some svcPort443) = "https://1.2.3.4/" :=
  ⟨rfl, by decide, (GetServiceURL_loadBalancer svcPort443 rfl (by decide)).trans (by decide)⟩

/-! ## Readiness waiting -/

/-- C7 fails on the code: when the watch-until-condition call ends with an error
other than the wait-timeout error (here the one of a watch closed by the
server), `WaitForExternalIP` and `WaitForService` return nil, reporting the
service as ready, where the claim has that same error returned unchanged.  The
error of opening the watch, in the same functions, is returned unchanged; the
wait-timeout error and success are handled as the claim says. -/
theorem WaitFor_closed_watch_returns_nil :
    WaitForExternalIP (.ok ()) (some (GoError.New "watch closed before UntilWithoutRetry timeout"))
        "jenkins" = none
    ∧ WaitForService (.ok ()) (some (GoError.New "watch closed before UntilWithoutRetry timeout"))
        "jenkins" = none
    ∧ WaitForExternalIP (.ok ()) (some (GoError.New "watch closed before UntilWithoutRetry timeout"))
        "jenkins" ≠ some (GoError.New "watch closed before UntilWithoutRetry timeout")
    ∧ WaitForService (.ok ()) (some (GoError.New "watch closed before UntilWithoutRetry timeout"))
        "jenkins" ≠ some (GoError.New "watch closed before UntilWithoutRetry timeout")
    ∧ WaitForExternalIP (.error (GoError.New "forbidden")) none "jenkins"
        = some (GoError.New "forbidden")
    ∧ WaitForService (.error (GoError.New "forbidden")) none "jenkins"
        = some (GoError.New "forbidden")
    ∧ WaitForExternalIP (.ok ()) (some GoError.ErrWaitTimeout) "jenkins"
        = some (GoError.New "service jenkins never became ready")
    ∧ WaitForService (.ok ()) (some GoError.ErrWaitTimeout) "jenkins"
        = some (GoError.New "service jenkins never became ready")
    ∧ WaitForExternalIP (.ok ()) none "jenkins" = none
    ∧ WaitForService (.ok ()) none "jenkins" = none := by
  decide

/-! ## Basic-auth annotation -/

theorem StringArrayIndex_neg_iff (array : List String) (value : String) :
    StringArrayIndex array value < 0 ↔ value ∉ array := by
  unfold StringArrayIndex
  by_cases h : value ∈ array
  · simp [h]
  · simp [h]

theorem AnnotateServicesWithBasicAuth.loop_prefix (SecretBasicAuth ns : String)
    (updateErr : Service → Option GoError) (services : List String) (svcList : List Service) :
    (AnnotateServicesWithBasicAuth.loop SecretBasicAuth ns updateErr services svcList).updates
      <+: (svcList.filter (fun s => s.Name ∈ services)).map
            (AnnotateServicesWithBasicAuth.body SecretBasicAuth) := by
  induction svcList with
  | nil => simp [AnnotateServicesWithBasicAuth.loop]
  | cons s rest ih =>
    by_cases hs : s.Name ∈ services
    · simp only [AnnotateServicesWithBasicAuth.loop, StringArrayIndex_neg_iff, hs,
        not_true_eq_false, if_false, List.filter_cons, decide_True, if_true, List.map_cons]
      cases updateErr (AnnotateServicesWithBasicAuth.body SecretBasicAuth s) with
      | some err => simp [List.prefix_cons_inj, List.nil_prefix]
      | none => simpa [List.prefix_cons_inj] using ih
    · simpa [AnnotateServicesWithBasicAuth.loop, StringArrayIndex_neg_iff, hs, List.filter_cons]
        using ih

theorem AnnotateServicesWithBasicAuth.loop_all (SecretBasicAuth ns : String)
    (services : List String) (svcList : List Service) :
    AnnotateServicesWithBasicAuth.loop SecretBasicAuth ns (fun _ => none) services svcList
      = ⟨(svcList.filter (fun s => s.Name ∈ services)).map
            (AnnotateServicesWithBasicAuth.body SecretBasicAuth), .ok none⟩ := by
  induction svcList with
  | nil => simp [AnnotateServicesWithBasicAuth.loop]
  | cons s rest ih =>
    by_cases hs : s.Name ∈ services
    · simp [AnnotateServicesWithBasicAuth.loop, StringArrayIndex_neg_iff, hs, List.filter_cons, ih]
    · simp [AnnotateServicesWithBasicAuth.loop, StringArrayIndex_neg_iff, hs, List.filter_cons, ih]

/-! ## Map lemmas -/

theorem assocGet?_assocSet_self (k v : String) (l : StringMap) :
    assocGet? k (assocSet k v l) = some v := by
  induction l with
  | nil => simp [assocSet, assocGet?]
  | cons p rest ih =>
    obtain ⟨k1, v1⟩ := p
    by_cases h : k1 = k <;> simp [assocSet, assocGet?, h, ih]

theorem assocGet?_assocSet_ne (k v key : String) (l : StringMap) (h : key ≠ k) :
    assocGet? key (assocSet k v l) = assocGet? key l := by
  induction l with
  | nil => simp [assocSet, assocGet?, Ne.symm h]
  | cons p rest ih =>
    obtain ⟨k1, v1⟩ := p
    by_cases h1 : k1 = k
    · subst h1
      simp [assocSet, assocGet?, Ne.symm h]
    · by_cases h2 : k1 = key
      · subst h2
        simp [assocSet, assocGet?, h1]
      · simp [assocSet, assocGet?, h1, h2, ih]

theorem assocGet?_assocErase_ne (k key : String) (l : StringMap) (h : key ≠ k) :
    assocGet? key (assocErase k l) = assocGet? key l := by
  induction l with
  | nil => rfl
  | cons p rest ih =>
    obtain ⟨k1, v1⟩ := p
    by_cases h1 : k1 = k
    · subst h1
      simp [assocErase, assocGet?, Ne.symm h, ih]
    · by_cases h2 : k1 = key
      · subst h2
        simp [assocErase, assocGet?, h1]
      · simp [assocErase, assocGet?, h1, h2, ih]

theorem assocGet?_assocErase_self (k : String) (l : StringMap) :
    assocGet? k (assocErase k l) = none := by
  induction l with
  | nil => rfl
  | cons p rest ih =>
    obtain ⟨k1, v1⟩ := p
    by_cases h1 : k1 = k <;> simp [assocErase, assocGet?, h1, ih]

theorem assocSet_of_get (k v : String) (l : StringMap) (h : assocGet? k l = some v) :
    assocSet k v l = l := by
  induction l with
  | nil => simp [assocGet?] at h
  | cons p rest ih =>
    obtain ⟨k1, v1⟩ := p
    by_cases h1 : k1 = k
    · simp [assocGet?, h1] at h
      simp [assocSet, h1, h]
    · simp [assocGet?, h1] at h
      simp [assocSet, h1, ih h]

theorem assocErase_idem (k : String) (l : StringMap) :
    assocErase k (assocErase k l) = assocErase k l := by
  induction l with
  | nil => rfl
  | cons p rest ih =>
    obtain ⟨k1, v1⟩ := p
    by_cases h1 : k1 = k <;> simp [assocErase, h1, ih]

/-! ## Basic-auth annotation: the claim -/

theorem AnnotateServicesWithBasicAuth.body_blob (SecretBasicAuth : String) (s : Service) :
    mapGet (AnnotateServicesWithBasicAuth.body SecretBasicAuth s).Annotations ExposeIngressAnnotation
      = if mapGet s.Annotations ExposeIngressAnnotation ≠ "" then
          mapGet s.Annotations ExposeIngressAnnotation ++ "\n"
            ++ AnnotateServicesWithBasicAuth.basicAuthAnnotations SecretBasicAuth
        else AnnotateServicesWithBasicAuth.basicAuthAnnotations SecretBasicAuth := by
  cases hm : s.Annotations with
  | none =>
    simp [AnnotateServicesWithBasicAuth.body, hm, mapGet, assocGet?_assocSet_self, assocGet?]
  | some l =>
    simp [AnnotateServicesWithBasicAuth.body, hm, mapGet, assocGet?_assocSet_self]

theorem AnnotateServicesWithBasicAuth.body_other (SecretBasicAuth : String) (s : Service)
    (key : String) (h : key ≠ ExposeIngressAnnotation) :
    mapGet (AnnotateServicesWithBasicAuth.body SecretBasicAuth s).Annotations key
      = mapGet s.Annotations key := by
  cases hm : s.Annotations with
  | none =>
    simp [AnnotateServicesWithBasicAuth.body, hm, mapGet, assocGet?_assocSet_ne _ _ _ _ h,
      assocGet?, assocSet, Ne.symm h]
  | some l =>
    simp [AnnotateServicesWithBasicAuth.body, hm, mapGet, assocGet?_assocSet_ne _ _ _ _ h]

/-- C8, as stated, fails: a Service named in the caller's set that carries no
expose annotation at all gets the basic-auth block and is updated. -/
theorem basicAuth_without_expose_counterexample :
    mapGet svcNoAnnotations.Annotations ExposeAnnotation ≠ "true"
    ∧ AnnotateServicesWithBasicAuth (.ok [svcNoAnnotations]) (fun _ => none) "jx-basic-auth" "jx"
        ["nexus"]
      = ⟨[⟨"nexus", some [("fabric8.io/ingress.annotations",
            "nginx.ingress.kubernetes.io/auth-type: basic\nnginx.ingress.kubernetes.io/auth-secret: jx-basic-auth\nnginx.ingress.kubernetes.io/auth-realm: Authentication is required to access this service")],
          ⟨"ClusterIP", []⟩, ⟨⟨[]⟩⟩⟩], .ok none⟩ := by
  decide

/-- C8, amended: `AnnotateServicesWithBasicAuth` appends the three-line
basic-auth block to, and updates, only those listed Services that are named in
the caller's set, whatever their expose and skip-TLS annotations are: the
Services passed to `Update` are, in order, an initial part of the named listed
Services with the block appended to their ingress-annotations blob (all of them
when no update fails, and then the function returns nil), every other annotation
and the name being as before; a Service that is not named is neither modified
nor updated, and with an empty name set no Service is touched at all. -/
theorem AnnotateServicesWithBasicAuth_named_only (svcList : List Service)
    (getServices : Except GoError (List Service))
    (updateErr : Service → Option GoError) (SecretBasicAuth ns : String) (services : List String)
    (s : Service) (key : String) (hkey : key ≠ ExposeIngressAnnotation) :
    (AnnotateServicesWithBasicAuth (.ok svcList) updateErr SecretBasicAuth ns services).updates
        <+: (svcList.filter (fun s => s.Name ∈ services)).map
              (AnnotateServicesWithBasicAuth.body SecretBasicAuth)
    ∧ AnnotateServicesWithBasicAuth (.ok svcList) (fun _ => none) SecretBasicAuth ns services
        = ⟨(svcList.filter (fun s => s.Name ∈ services)).map
              (AnnotateServicesWithBasicAuth.body SecretBasicAuth), .ok none⟩
    ∧ AnnotateServicesWithBasicAuth getServices updateErr SecretBasicAuth ns [] = ⟨[], .ok none⟩
    ∧ mapGet (AnnotateServicesWithBasicAuth.body SecretBasicAuth s).Annotations
          ExposeIngressAnnotation
        = (if mapGet s.Annotations ExposeIngressAnnotation ≠ "" then
            mapGet s.Annotations ExposeIngressAnnotation ++ "\n"
              ++ AnnotateServicesWithBasicAuth.basicAuthAnnotations SecretBasicAuth
          else AnnotateServicesWithBasicAuth.basicAuthAnnotations SecretBasicAuth)
    ∧ mapGet (AnnotateServicesWithBasicAuth.body SecretBasicAuth s).Annotations key
        = mapGet s.Annotations key
    ∧ (AnnotateServicesWithBasicAuth.body SecretBasicAuth s).Name = s.Name := by
  refine ⟨?_, ?_, ?_, AnnotateServicesWithBasicAuth.body_blob SecretBasicAuth s,
    AnnotateServicesWithBasicAuth.body_other SecretBasicAuth s key hkey, rfl⟩
  · unfold AnnotateServicesWithBasicAuth
    by_cases h0 : services.length = 0
    · simp [h0]
    · simpa [h0] using
        AnnotateServicesWithBasicAuth.loop_prefix SecretBasicAuth ns updateErr services svcList
  · unfold AnnotateServicesWithBasicAuth
    by_cases h0 : services.length = 0
    · have h1 : services = [] := List.length_eq_zero.mp h0
      simp [h1]
    · simpa [h0] using AnnotateServicesWithBasicAuth.loop_all SecretBasicAuth ns services svcList
  · simp [AnnotateServicesWithBasicAuth]

/-- Witness of C8, amended: of two listed Services only the named one is updated,
its expose annotation being kept. -/
theorem AnnotateServicesWithBasicAuth_named_only_witness :
    "fabric8.io/expose" ≠ ExposeIngressAnnotation
    ∧ AnnotateServicesWithBasicAuth (.ok [svcNexus, svcJenkins]) (fun _ => none) "jx-basic-auth"
        "jx" ["jenkins"]
      = ⟨[AnnotateServicesWithBasicAuth.body "jx-basic-auth" svcJenkins], .ok none⟩
    ∧ mapGet (AnnotateServicesWithBasicAuth.body "jx-basic-auth" svcJenkins).Annotations
        "fabric8.io/expose" = "true" :=
  ⟨by decide,
    ((AnnotateServicesWithBasicAuth_named_only [svcNexus, svcJenkins] (.ok []) (fun _ => none)
      "jx-basic-auth" "jx" ["jenkins"] svcJenkins "fabric8.io/expose" (by decide)).2.1).trans
      (by decide),
    ((AnnotateServicesWithBasicAuth_named_only [svcNexus, svcJenkins] (.ok []) (fun _ => none)
      "jx-basic-auth" "jx" ["jenkins"] svcJenkins "fabric8.io/expose"
      (by decide)).2.2.2.2.1).trans (by decide)⟩

/-! ## Splitting and joining strings -/

theorem splitOn_mem_not_sep (sep : Char) (xs : List Char) :
    ∀ l ∈ xs.splitOn sep, sep ∉ l := by
  induction xs with
  | nil => simp [List.splitOn_nil]
  | cons x rest ih =>
    intro l hl
    simp only [List.splitOn, List.splitOnP_cons] at hl ih
    by_cases hx : (x == sep) = true
    · simp only [hx, if_true, List.mem_cons] at hl
      rcases hl with hl | hl
      · simp [hl]
      · exact ih l hl
    · simp only [hx, if_false, Bool.false_eq_true] at hl
      cases hsp : List.splitOnP (fun c => c == sep) rest with
      | nil => simp [hsp, List.modifyHead] at hl
      | cons hd tl =>
        simp only [hsp, List.modifyHead, List.mem_cons] at hl ih
        rcases hl with hl | hl
        · subst hl
          have h1 : sep ∉ hd := ih hd (Or.inl rfl)
          have h2 : ¬ sep = x := fun h => hx (by simp [h])
          simp [h1, h2]
        · exact ih l (Or.inr hl)

theorem splitOn_append_sep (sep : Char) (xs ys : List Char) :
    (xs ++ sep :: ys).splitOn sep = xs.splitOn sep ++ ys.splitOn sep := by
  induction xs with
  | nil => simp [List.splitOn, List.splitOnP_cons]
  | cons x rest ih =>
    simp only [List.splitOn, List.cons_append, List.splitOnP_cons] at ih ⊢
    by_cases hx : (x == sep) = true
    · simp [hx, ih]
    · simp only [hx, if_false, Bool.false_eq_true, ih]
      cases hsp : List.splitOnP (fun c => c == sep) rest with
      | nil => exact absurd hsp (List.splitOnP_ne_nil _ _)
      | cons hd tl => simp [List.modifyHead]

theorem splitOn_of_not_mem (sep : Char) (xs : List Char) (h : sep ∉ xs) :
    xs.splitOn sep = [xs] := by
  apply List.splitOnP_eq_single
  intro x hx hsep
  have : x = sep := by simpa using hsep
  exact h (this ▸ hx)

theorem intercalate_go_data (sep : String) (ls : List String) (acc : String) :
    (String.intercalate.go acc sep ls).data
      = acc.data ++ (ls.map (fun a => sep.data ++ a.data)).flatten := by
  induction ls generalizing acc with
  | nil => simp [String.intercalate.go]
  | cons a rest ih => simp [String.intercalate.go, ih, String.data_append, List.append_assoc]

theorem list_intercalate_cons (sep : List Char) (a : List Char) (ls : List (List Char)) :
    sep.intercalate (a :: ls) = a ++ (ls.map (fun b => sep ++ b)).flatten := by
  induction ls generalizing a with
  | nil => simp [List.intercalate]
  | cons b rest ih =>
    have h := ih b
    simp only [List.intercalate, List.intersperse, List.flatten_cons, List.map_cons] at h ⊢
    rw [h]
    simp [List.append_assoc]

theorem intercalate_data (sep : String) (ls : List String) :
    (sep.intercalate ls).data = sep.data.intercalate (ls.map String.data) := by
  cases ls with
  | nil => simp [String.intercalate, List.intercalate]
  | cons a rest =>
    simp [String.intercalate, intercalate_go_data, list_intercalate_cons, List.map_map,
      Function.comp_def]

theorem Split_mem_not_sep (s : String) (sep : Char) : ∀ l ∈ Split s sep, sep ∉ l.data := by
  intro l hl
  simp only [Split, List.mem_map] at hl
  obtain ⟨cs, hcs, rfl⟩ := hl
  exact splitOn_mem_not_sep sep s.data cs hcs

theorem Split_of_not_mem (s : String) (sep : Char) (h : sep ∉ s.data) : Split s sep = [s] := by
  simp [Split, splitOn_of_not_mem sep s.data h]

theorem Split_append_newline (a b : String) :
    Split (a ++ "\n" ++ b) '\n' = Split a '\n' ++ Split b '\n' := by
  have h : (a ++ "\n" ++ b).data = a.data ++ '\n' :: b.data := by
    simp [String.data_append, List.append_assoc]
  simp [Split, h, splitOn_append_sep]

theorem map_data_map_mk (ls : List (List Char)) : (ls.map String.mk).map String.data = ls := by
  induction ls with
  | nil => rfl
  | cons a rest ih => rw [List.map_cons, List.map_cons, ih]

theorem map_mk_map_data (ls : List String) : (ls.map String.data).map String.mk = ls := by
  induction ls with
  | nil => rfl
  | cons a rest ih => rw [List.map_cons, List.map_cons, ih]

theorem intercalate_Split (s : String) : "\n".intercalate (Split s '\n') = s := by
  apply String.ext
  rw [intercalate_data, Split, map_data_map_mk]
  exact List.intercalate_splitOn s.data '\n'

theorem Split_intercalate (ls : List String) (hne : ls ≠ [])
    (h : ∀ l ∈ ls, '\n' ∉ l.data) : Split ("\n".intercalate ls) '\n' = ls := by
  have h1 : ∀ l ∈ ls.map String.data, '\n' ∉ l := by
    intro l hl
    simp only [List.mem_map] at hl
    obtain ⟨t, ht, rfl⟩ := hl
    exact h t ht
  have h2 : ls.map String.data ≠ [] := by simpa using hne
  have h3 := List.splitOn_intercalate (ls.map String.data) '\n' h1 h2
  have h4 : ("\n" : String).data = ['\n'] := rfl
  rw [Split, intercalate_data, h4, h3, map_mk_map_data]

/-! ## The loops of `CleanServiceAnnotations` -/

theorem length_pos_iff (s : String) : s.length > 0 ↔ s ≠ "" := by
  rw [Ne, String.ext_iff]
  show s.data.length > 0 ↔ ¬ s.data = []
  exact List.length_pos

theorem ne_empty_of_colon (line : String) (h : ':' ∈ line.data) : line ≠ "" := by
  intro h0
  rw [h0] at h
  simp at h

theorem SplitN_of_colon (line : String) (h : ':' ∈ line.data) :
    SplitN line ':' 2
      = [keyOf line, String.mk ((line.data.dropWhile (fun c => c ≠ ':')).drop 1)] := by
  simp [SplitN, keyOf, h]

theorem SplitN_of_no_colon (line : String) (h : ':' ∉ line.data) :
    SplitN line ':' 2 = [line] := by
  simp [SplitN, h]

theorem CleanServiceAnnotations.filterLoop_eq (lines newAnnotations : List String) :
    CleanServiceAnnotations.filterLoop lines newAnnotations
      = if ∀ l ∈ lines, ':' ∈ l.data then .ok (newAnnotations ++ lines.filter keptLine)
        else .error Panic.indexOutOfRange := by
  induction lines generalizing newAnnotations with
  | nil => simp [CleanServiceAnnotations.filterLoop]
  | cons element rest ih =>
    by_cases hc : ':' ∈ element.data
    · by_cases hk : keyOf element ≠ CertManagerAnnotation
          ∧ keyOf element ≠ CertManagerClusterAnnotation
      · have hkept : keptLine element = true := by simp [keptLine, hk]
        simp only [CleanServiceAnnotations.filterLoop, SplitN_of_colon element hc,
          List.getElem?_cons_zero, List.getElem?_cons_succ, hk, ih, List.mem_cons,
          forall_eq_or_imp, hc, true_and, List.filter_cons, hkept, if_true,
          List.append_assoc, List.singleton_append, and_self, not_false_eq_true]
        rw [if_pos hk]
      · have hkept : keptLine element = false := by simp [keptLine, hk]
        simp only [CleanServiceAnnotations.filterLoop, SplitN_of_colon element hc,
          List.getElem?_cons_zero, List.getElem?_cons_succ, hk, ih, List.mem_cons,
          forall_eq_or_imp, hc, true_and, List.filter_cons, hkept, if_false,
          Bool.false_eq_true]
    · simp [CleanServiceAnnotations.filterLoop, SplitN_of_no_colon element hc, hc]

theorem CleanServiceAnnotations.joinLoop_of_ne (lines : List String) (acc : String)
    (hacc : acc ≠ "") :
    CleanServiceAnnotations.joinLoop lines acc = String.intercalate.go acc "\n" lines := by
  induction lines generalizing acc with
  | nil => rfl
  | cons v rest ih =>
    have hpos : acc.length > 0 := (length_pos_iff acc).mpr hacc
    have hne : acc ++ "\n" ++ v ≠ "" := by
      rw [← length_pos_iff]
      simp only [String.length_append]
      omega
    simp only [CleanServiceAnnotations.joinLoop, hpos, if_true, String.intercalate.go]
    exact ih _ hne

theorem CleanServiceAnnotations.joinLoop_empty (lines : List String)
    (h : ∀ l ∈ lines, l ≠ "") :
    CleanServiceAnnotations.joinLoop lines "" = "\n".intercalate lines := by
  cases lines with
  | nil => rfl
  | cons v rest =>
    have hv : v ≠ "" := h v (List.mem_cons_self _ _)
    have h0 : ¬ ("" : String).length > 0 := by decide
    simp only [CleanServiceAnnotations.joinLoop, h0, if_false, String.intercalate]
    exact CleanServiceAnnotations.joinLoop_of_ne rest v hv

theorem CleanServiceAnnotations.ingressAnnotations_eq (blob : String) :
    CleanServiceAnnotations.ingressAnnotations blob
      = if ∀ l ∈ Split blob '\n', ':' ∈ l.data then .ok (cleanedBlob_spec blob)
        else .error Panic.indexOutOfRange := by
  unfold CleanServiceAnnotations.ingressAnnotations
  rw [CleanServiceAnnotations.filterLoop_eq]
  by_cases hall : ∀ l ∈ Split blob '\n', ':' ∈ l.data
  · have hne : ∀ l ∈ (Split blob '\n').filter keptLine, l ≠ "" := by
      intro l hl
      exact ne_empty_of_colon l (hall l (List.mem_of_mem_filter hl))
    rw [if_pos hall, if_pos hall]
    simp only [List.nil_append, cleanedBlob_spec]
    rw [CleanServiceAnnotations.joinLoop_empty _ hne]
  · rw [if_neg hall, if_neg hall]

/-! ## Cleaning one Service -/

theorem CleanServiceAnnotations.ingressAnnotations_fixed (blob cleaned : String)
    (h : CleanServiceAnnotations.ingressAnnotations blob = .ok cleaned) (hne : cleaned ≠ "") :
    CleanServiceAnnotations.ingressAnnotations cleaned = .ok cleaned := by
  rw [CleanServiceAnnotations.ingressAnnotations_eq] at h
  by_cases hall : ∀ l ∈ Split blob '\n', ':' ∈ l.data
  · rw [if_pos hall] at h
    have hcl : cleanedBlob_spec blob = cleaned := by
      injection h
    have hkept : (Split blob '\n').filter keptLine ≠ [] := by
      intro h0
      apply hne
      rw [← hcl, cleanedBlob_spec, h0]
      rfl
    have hnl : ∀ l ∈ (Split blob '\n').filter keptLine, '\n' ∉ l.data := by
      intro l hl
      exact Split_mem_not_sep blob '\n' l (List.mem_of_mem_filter hl)
    have hsplit : Split cleaned '\n' = (Split blob '\n').filter keptLine := by
      rw [← hcl, cleanedBlob_spec]
      exact Split_intercalate _ hkept hnl
    have hall2 : ∀ l ∈ Split cleaned '\n', ':' ∈ l.data := by
      intro l hl
      rw [hsplit] at hl
      exact hall l (List.mem_of_mem_filter hl)
    rw [CleanServiceAnnotations.ingressAnnotations_eq, if_pos hall2]
    congr 1
    rw [cleanedBlob_spec, hsplit, List.filter_filter]
    simp only [Bool.and_self]
    rw [← hcl, cleanedBlob_spec]
  · rw [if_neg hall] at h
    cases h

theorem CleanServiceAnnotations.body_nil (s : Service) (hm : s.Annotations = none) :
    CleanServiceAnnotations.body s = .ok s := by
  have h0 : ¬ ("" : String).length > 0 := by decide
  obtain ⟨n, a, sp, st⟩ := s
  simp only at hm
  subst hm
  simp [CleanServiceAnnotations.body, mapGet, mapDelete]

theorem CleanServiceAnnotations.body_some (s : Service) (l : StringMap)
    (hm : s.Annotations = some l) :
    CleanServiceAnnotations.body s
      = if (mapGet (some l) ExposeIngressAnnotation).length > 0 then
          match CleanServiceAnnotations.ingressAnnotations (mapGet (some l) ExposeIngressAnnotation) with
          | .error p => .error p
          | .ok blob =>
            .ok { s with
              Annotations := some (assocErase ExposeURLAnnotation (assocSet ExposeIngressAnnotation blob l)) }
        else .ok { s with Annotations := some (assocErase ExposeURLAnnotation l) } := by
  unfold CleanServiceAnnotations.body
  rw [hm]
  by_cases hlen : (mapGet (some l) ExposeIngressAnnotation).length > 0
  · simp only [hlen, if_true]
    cases CleanServiceAnnotations.ingressAnnotations (mapGet (some l) ExposeIngressAnnotation) with
    | error p => rfl
    | ok blob => rfl
  · simp only [hlen, if_false]
    rfl

theorem ingress_ne_url : ExposeIngressAnnotation ≠ ExposeURLAnnotation := by decide

theorem CleanServiceAnnotations.body_fixed (s s1 : Service)
    (h : CleanServiceAnnotations.body s = .ok s1) :
    CleanServiceAnnotations.body s1 = .ok s1 := by
  cases hm : s.Annotations with
  | none =>
    rw [CleanServiceAnnotations.body_nil s hm] at h
    injection h with h
    subst h
    exact CleanServiceAnnotations.body_nil s hm
  | some l =>
    rw [CleanServiceAnnotations.body_some s l hm] at h
    by_cases hlen : (mapGet (some l) ExposeIngressAnnotation).length > 0
    · rw [if_pos hlen] at h
      cases hia : CleanServiceAnnotations.ingressAnnotations
          (mapGet (some l) ExposeIngressAnnotation) with
      | error p => rw [hia] at h; cases h
      | ok blob =>
        rw [hia] at h
        injection h with h
        subst h
        have hget : assocGet? ExposeIngressAnnotation
            (assocErase ExposeURLAnnotation (assocSet ExposeIngressAnnotation blob l))
            = some blob := by
          rw [assocGet?_assocErase_ne _ _ _ ingress_ne_url, assocGet?_assocSet_self]
        rw [CleanServiceAnnotations.body_some _ _ rfl]
        have hblob : mapGet (some (assocErase ExposeURLAnnotation
            (assocSet ExposeIngressAnnotation blob l))) ExposeIngressAnnotation = blob := by
          simp [mapGet, hget]
        rw [hblob]
        by_cases hb : blob.length > 0
        · rw [if_pos hb,
            CleanServiceAnnotations.ingressAnnotations_fixed _ blob hia ((length_pos_iff blob).mp hb)]
          simp only
          rw [assocSet_of_get _ _ _ hget, assocErase_idem]
        · rw [if_neg hb, assocErase_idem]
    · rw [if_neg hlen] at h
      injection h with h
      subst h
      rw [CleanServiceAnnotations.body_some _ _ rfl]
      have hblob : mapGet (some (assocErase ExposeURLAnnotation l)) ExposeIngressAnnotation
          = mapGet (some l) ExposeIngressAnnotation := by
        simp [mapGet, assocGet?_assocErase_ne _ _ _ ingress_ne_url]
      rw [hblob, if_neg hlen, assocErase_idem]

theorem CleanServiceAnnotations.body_get_other (s s1 : Service) (key : String)
    (h : CleanServiceAnnotations.body s = .ok s1)
    (h1 : key ≠ ExposeIngressAnnotation) (h2 : key ≠ ExposeURLAnnotation) :
    mapGet s1.Annotations key = mapGet s.Annotations key := by
  cases hm : s.Annotations with
  | none =>
    rw [CleanServiceAnnotations.body_nil s hm] at h
    injection h with h
    subst h
    rw [hm]
  | some l =>
    rw [CleanServiceAnnotations.body_some s l hm] at h
    by_cases hlen : (mapGet (some l) ExposeIngressAnnotation).length > 0
    · rw [if_pos hlen] at h
      cases hia : CleanServiceAnnotations.ingressAnnotations
          (mapGet (some l) ExposeIngressAnnotation) with
      | error p => rw [hia] at h; cases h
      | ok blob =>
        rw [hia] at h
        injection h with h
        subst h
        simp [mapGet, assocGet?_assocErase_ne _ _ _ h2, assocGet?_assocSet_ne _ _ _ _ h1]
    · rw [if_neg hlen] at h
      injection h with h
      subst h
      simp [mapGet, assocGet?_assocErase_ne _ _ _ h2]

theorem CleanServiceAnnotations.eligible_body (s s1 : Service)
    (h : CleanServiceAnnotations.body s = .ok s1) :
    CleanServiceAnnotations.eligible s1 = CleanServiceAnnotations.eligible s := by
  unfold CleanServiceAnnotations.eligible
  rw [CleanServiceAnnotations.body_get_other s s1 ExposeAnnotation h (by decide) (by decide),
    CleanServiceAnnotations.body_get_other s s1 JenkinsXSkipTLSAnnotation h (by decide)
      (by decide)]

/-- C5: cleaning is idempotent: for every Service, applying the per-service
transformation of `CleanServiceAnnotations` (the test of line 481, the filtering
of the ingress-annotations blob and the deletion of the exposed-URL annotation)
twice yields the same outcome, hence the same annotation map, as applying it
once; the same holds of the transformation without the test. -/
theorem CleanServiceAnnotations_idempotent (s : Service) :
    (CleanServiceAnnotations.perService s).bind CleanServiceAnnotations.perService
        = CleanServiceAnnotations.perService s
    ∧ (CleanServiceAnnotations.body s).bind CleanServiceAnnotations.body
        = CleanServiceAnnotations.body s := by
  constructor
  · unfold CleanServiceAnnotations.perService
    by_cases he : CleanServiceAnnotations.eligible s = true
    · rw [if_pos he]
      cases hb : CleanServiceAnnotations.body s with
      | error p => rfl
      | ok s1 =>
        show (if CleanServiceAnnotations.eligible s1 = true then CleanServiceAnnotations.body s1
          else .ok s1) = .ok s1
        rw [CleanServiceAnnotations.eligible_body s s1 hb, if_pos he]
        exact CleanServiceAnnotations.body_fixed s s1 hb
    · rw [if_neg he]
      show (if CleanServiceAnnotations.eligible s = true then CleanServiceAnnotations.body s
        else .ok s) = .ok s
      rw [if_neg he]
  · cases hb : CleanServiceAnnotations.body s with
    | error p => rfl
    | ok s1 => exact CleanServiceAnnotations.body_fixed s s1 hb

theorem CleanServiceAnnotations.annotations_of_eligible (s : Service)
    (h : CleanServiceAnnotations.eligible s = true) : ∃ l, s.Annotations = some l := by
  cases hm : s.Annotations with
  | none =>
    rw [CleanServiceAnnotations.eligible, hm] at h
    simp [mapGet] at h
  | some l => exact ⟨l, rfl⟩

/-- For a Service with a non-empty blob all of whose lines contain a colon, the
loop body of `CleanServiceAnnotations` yields the Service the specification
describes: the blob is the join of the kept lines, the exposed-URL annotation is
gone and every other annotation is as before. -/
theorem CleanServiceAnnotations.body_of_colons (s : Service)
    (hblob : mapGet s.Annotations ExposeIngressAnnotation ≠ "")
    (hall : ∀ line ∈ Split (mapGet s.Annotations ExposeIngressAnnotation) '\n', ':' ∈ line.data) :
    ∃ s1, CleanServiceAnnotations.body s = .ok s1
      ∧ mapGet s1.Annotations ExposeIngressAnnotation
          = cleanedBlob_spec (mapGet s.Annotations ExposeIngressAnnotation)
      ∧ mapHas s1.Annotations ExposeURLAnnotation = false
      ∧ (∀ key, key ≠ ExposeIngressAnnotation → key ≠ ExposeURLAnnotation →
          mapGet s1.Annotations key = mapGet s.Annotations key)
      ∧ s1.Name = s.Name ∧ s1.Spec = s.Spec ∧ s1.Status = s.Status := by
  cases hm : s.Annotations with
  | none => rw [hm] at hblob; exact absurd rfl hblob
  | some l =>
    rw [hm] at hblob hall
    have hlen := (length_pos_iff _).mpr hblob
    have hbody := CleanServiceAnnotations.body_some s l hm
    rw [if_pos hlen, CleanServiceAnnotations.ingressAnnotations_eq, if_pos hall] at hbody
    simp only at hbody
    refine ⟨_, hbody, ?_, ?_, ?_, rfl, rfl, rfl⟩
    · simp [mapGet, assocGet?_assocErase_ne _ _ _ ingress_ne_url, assocGet?_assocSet_self]
    · simp [mapHas, assocGet?_assocErase_self]
    · intro key h1 h2
      simp [mapGet, assocGet?_assocErase_ne _ _ _ h2, assocGet?_assocSet_ne _ _ _ _ h1]

/-- C6 fails on the code: for a selected Service with expose annotation `"true"`
whose blob `"a: b\n"` ends with a newline, the claim promises the written-back
blob `"a: b\n"` (both lines are kept, the empty one having the empty key), but
`CleanServiceAnnotations` stops with an index-out-of-range panic before any
`Update`. -/
theorem CleanServiceAnnotations_trailing_newline :
    CleanServiceAnnotations.eligible svcTrailingNewline = true
    ∧ mapGet svcTrailingNewline.Annotations ExposeIngressAnnotation = "a: b\n"
    ∧ cleanedBlob_spec "a: b\n" = "a: b\n"
    ∧ CleanServiceAnnotations (.ok [svcTrailingNewline]) (fun _ => none) "jx" []
        = ⟨[], .error Panic.indexOutOfRange⟩
    ∧ CleanServiceAnnotations (.ok [svcTrailingNewline]) (fun _ => none) "jx" ["jenkins"]
        = ⟨[], .error Panic.indexOutOfRange⟩
    ∧ CleanServiceAnnotations (.ok [svcOneLine]) (fun _ => none) "jx" []
        = ⟨[⟨"jenkins", some [("fabric8.io/expose", "true"),
              ("fabric8.io/ingress.annotations", "a: b")], ⟨"ClusterIP", []⟩, ⟨⟨[]⟩⟩⟩],
            .ok none⟩ := by
  decide

/-- C9: for every eligible Service with a non-empty ingress-annotations blob,
the blob-parsing step of `CleanServiceAnnotations` fails with an out-of-range
index if and only if some `"\n"`-separated line of the blob contains no colon,
and so does the transformation of the Service; the Service is processed without
failure if and only if every line contains a colon. -/
theorem CleanServiceAnnotations_panic_iff (s : Service)
    (helig : CleanServiceAnnotations.eligible s = true)
    (hblob : mapGet s.Annotations ExposeIngressAnnotation ≠ "") :
    (CleanServiceAnnotations.ingressAnnotations (mapGet s.Annotations ExposeIngressAnnotation)
        = .error Panic.indexOutOfRange
      ↔ ∃ line ∈ Split (mapGet s.Annotations ExposeIngressAnnotation) '\n', ':' ∉ line.data)
    ∧ (CleanServiceAnnotations.perService s = .error Panic.indexOutOfRange
      ↔ ∃ line ∈ Split (mapGet s.Annotations ExposeIngressAnnotation) '\n', ':' ∉ line.data)
    ∧ ((∃ s1, CleanServiceAnnotations.perService s = .ok s1)
      ↔ ∀ line ∈ Split (mapGet s.Annotations ExposeIngressAnnotation) '\n', ':' ∈ line.data) := by
  obtain ⟨l, hm⟩ := CleanServiceAnnotations.annotations_of_eligible s helig
  have hlen := (length_pos_iff _).mpr hblob
  have hper : CleanServiceAnnotations.perService s = CleanServiceAnnotations.body s := by
    rw [CleanServiceAnnotations.perService, if_pos helig]
  have hbody := CleanServiceAnnotations.body_some s l hm
  rw [hm] at hlen
  rw [if_pos hlen, CleanServiceAnnotations.ingressAnnotations_eq] at hbody
  rw [hper, hbody, CleanServiceAnnotations.ingressAnnotations_eq, hm]
  by_cases hall : ∀ line ∈ Split (mapGet (some l) ExposeIngressAnnotation) '\n', ':' ∈ line.data
  · have hex : ¬ ∃ line ∈ Split (mapGet (some l) ExposeIngressAnnotation) '\n',
        ':' ∉ line.data := by
      rintro ⟨line, hl, hc⟩
      exact hc (hall line hl)
    rw [if_pos hall]
    exact ⟨⟨fun h => by simp at h, fun h => absurd h hex⟩,
      ⟨fun h => by simp at h, fun h => absurd h hex⟩, ⟨fun _ => hall, fun _ => ⟨_, rfl⟩⟩⟩
  · have hex : ∃ line ∈ Split (mapGet (some l) ExposeIngressAnnotation) '\n',
        ':' ∉ line.data := by
      by_contra hcon
      apply hall
      intro line hl
      by_contra hc
      exact hcon ⟨line, hl, hc⟩
    rw [if_neg hall]
    exact ⟨⟨fun _ => hex, fun _ => rfl⟩, ⟨fun _ => hex, fun _ => rfl⟩,
      ⟨fun ⟨s1, h⟩ => by simp at h, fun h => absurd h hall⟩⟩

/-- Witness of C9: the blob `"a: b\n"`, which ends with a newline, fails on its
empty last line. -/
theorem CleanServiceAnnotations_panic_iff_witness :
    CleanServiceAnnotations.eligible svcTrailingNewline = true
    ∧ mapGet svcTrailingNewline.Annotations ExposeIngressAnnotation ≠ ""
    ∧ CleanServiceAnnotations.perService svcTrailingNewline = .error Panic.indexOutOfRange :=
  ⟨by decide, by decide,
    (CleanServiceAnnotations_panic_iff svcTrailingNewline (by decide) (by decide)).2.1.mpr
      ⟨"", by decide, by decide⟩⟩

/-! ## Cleaning after issuer annotation -/

theorem keyOf_issuer_line (key rest : String) (hkey : ':' ∉ key.data) :
    keyOf (key ++ ": " ++ rest) = key := by
  apply String.ext
  have h1 : (key ++ ": " ++ rest).data = key.data ++ (':' :: ' ' :: rest.data) := by
    simp [String.data_append, List.append_assoc]
  have h2 : ∀ a ∈ key.data, (fun c => decide (c ≠ ':')) a = true := by
    intro a ha
    have : a ≠ ':' := fun h => hkey (h ▸ ha)
    simp [this]
  simp only [keyOf, h1]
  rw [List.takeWhile_append_of_pos h2]
  simp

/-- C10: cleaning undoes issuer annotation on the blob: for every blob `b` that
is empty or whose lines each contain a colon and none has a certificate-issuer
key before its first colon, for every issuer string without newline and either
value of the `clusterIssuer` flag, the blob `AnnotateServicesWithCertManagerIssuer`
produces from `b` is non-empty and the blob transformation of
`CleanServiceAnnotations` maps it back to exactly `b`. -/
theorem CleanServiceAnnotations_undoes_issuer (b issuer : String) (clusterIssuer : Bool)
    (hb : b = "" ∨ ∀ line ∈ Split b '\n', ':' ∈ line.data ∧ keptLine line = true)
    (hi : '\n' ∉ issuer.data) :
    (AnnotateServicesWithCertManagerIssuer.ingressAnnotations b issuer clusterIssuer).length > 0
    ∧ CleanServiceAnnotations.ingressAnnotations
        (AnnotateServicesWithCertManagerIssuer.ingressAnnotations b issuer clusterIssuer)
      = .ok b := by
  have hkey : ∃ key : String, (if clusterIssuer then CertManagerClusterAnnotation
        else CertManagerAnnotation) = key ∧ ':' ∉ key.data ∧ '\n' ∉ key.data
        ∧ (key = CertManagerAnnotation ∨ key = CertManagerClusterAnnotation) := by
    cases clusterIssuer
    · exact ⟨ CertManagerAnnotation, rfl, by decide, by decide, Or.inl rfl⟩
    · exact ⟨ CertManagerClusterAnnotation, rfl, by decide, by decide, Or.inr rfl⟩
  obtain ⟨key, hkeyeq, hkc, hkn, hkk⟩ := hkey
  have hlast_nl : '\n' ∉ (key ++ ": " ++ issuer).data := by
    simp only [String.data_append, List.mem_append, not_or]
    exact ⟨⟨hkn, by decide⟩, hi⟩
  have hlast_colon : ':' ∈ (key ++ ": " ++ issuer).data := by
    simp only [String.data_append, List.mem_append]
    exact Or.inl (Or.inr (by decide))
  have hlast_key : keptLine (key ++ ": " ++ issuer) = false := by
    rw [keptLine, keyOf_issuer_line key issuer hkc]
    rcases hkk with h | h <;> simp [h]
  have hlast_ne : key ++ ": " ++ issuer ≠ "" := ne_empty_of_colon _ hlast_colon
  by_cases hb0 : b = ""
  · subst hb0
    have h0 : ¬ ("" : String).length > 0 := by decide
    have hann : AnnotateServicesWithCertManagerIssuer.ingressAnnotations "" issuer clusterIssuer
        = key ++ ": " ++ issuer := by
      simp only [AnnotateServicesWithCertManagerIssuer.ingressAnnotations, hkeyeq, h0, if_false]
    rw [hann]
    refine ⟨(length_pos_iff _).mpr hlast_ne, ?_⟩
    have hsplit := Split_of_not_mem _ '\n' hlast_nl
    have hall : ∀ l ∈ Split (key ++ ": " ++ issuer) '\n', ':' ∈ l.data := by
      intro l hl
      rw [hsplit, List.mem_singleton] at hl
      rw [hl]
      exact hlast_colon
    rw [CleanServiceAnnotations.ingressAnnotations_eq, if_pos hall, cleanedBlob_spec, hsplit]
    simp [List.filter_cons, hlast_key, String.intercalate]
  · have hlines : ∀ line ∈ Split b '\n', ':' ∈ line.data ∧ keptLine line = true := by
      rcases hb with h | h
      · exact absurd h hb0
      · exact h
    have hpos : b.length > 0 := (length_pos_iff b).mpr hb0
    have hann : AnnotateServicesWithCertManagerIssuer.ingressAnnotations b issuer clusterIssuer
        = b ++ "\n" ++ (key ++ ": " ++ issuer) := by
      simp only [AnnotateServicesWithCertManagerIssuer.ingressAnnotations, hkeyeq, hpos, if_true,
        String.append_assoc]
    rw [hann]
    constructor
    · rw [String.length_append]
      have := (length_pos_iff _).mpr hlast_ne
      omega
    · have hsplit : Split (b ++ "\n" ++ (key ++ ": " ++ issuer)) '\n'
          = Split b '\n' ++ [key ++ ": " ++ issuer] := by
        rw [Split_append_newline, Split_of_not_mem _ '\n' hlast_nl]
      have hall : ∀ l ∈ Split (b ++ "\n" ++ (key ++ ": " ++ issuer)) '\n', ':' ∈ l.data := by
        intro l hl
        rw [hsplit, List.mem_append, List.mem_singleton] at hl
        rcases hl with hl | hl
        · exact (hlines l hl).1
        · rw [hl]; exact hlast_colon
      have hfilter : (Split b '\n').filter keptLine = Split b '\n' := by
        rw [List.filter_eq_self]
        intro l hl
        exact (hlines l hl).2
      rw [CleanServiceAnnotations.ingressAnnotations_eq, if_pos hall, cleanedBlob_spec, hsplit,
        List.filter_append, hfilter]
      simp only [List.filter_cons, hlast_key, List.filter_nil, List.append_nil, Bool.false_eq_true,
        if_false]
      rw [intercalate_Split]

/-- Witness of C10: a one-line blob, the issuer `letsencrypt-prod`, the
cluster-issuer key. -/
theorem CleanServiceAnnotations_undoes_issuer_witness :
    ("kubernetes.io/ingress.class: nginx" = ""
      ∨ ∀ line ∈ Split "kubernetes.io/ingress.class: nginx" '\n',
          ':' ∈ line.data ∧ keptLine line = true)
    ∧ '\n' ∉ "letsencrypt-prod".data
    ∧ AnnotateServicesWithCertManagerIssuer.ingressAnnotations
        "kubernetes.io/ingress.class: nginx" "letsencrypt-prod" true
      = "kubernetes.io/ingress.class: nginx\ncertmanager.k8s.io/cluster-issuer: letsencrypt-prod"
    ∧ CleanServiceAnnotations.ingressAnnotations
        (AnnotateServicesWithCertManagerIssuer.ingressAnnotations
          "kubernetes.io/ingress.class: nginx" "letsencrypt-prod" true)
      = .ok "kubernetes.io/ingress.class: nginx" :=
  ⟨Or.inr (by decide), by decide, by decide,
    (CleanServiceAnnotations_undoes_issuer "kubernetes.io/ingress.class: nginx"
      "letsencrypt-prod" true (Or.inr (by decide)) (by decide)).2⟩

end Jx
